import Mathlib

/-!
Verification of the mates address-book core (src/mates/cli.rs) against its
specification.  Rust strings are embedded as `List Char`; filesystem state is
an explicit map from paths to file contents.  Each Rust function used by the
claims is translated into an executable Lean definition; theorems about those
definitions settle the claims.
-/

/-- Rust `String` / `&str` contents, embedded as a list of characters. -/
abbrev Str := List Char

/-- Filesystem model: a path maps to the content of the file stored there,
or to `none` when no file exists at that path. -/
abbrev Fs := Str → Option Str

/-- Store `content` at `path`, leaving every other path unchanged. -/
def Fs.insert (fs : Fs) (path content : Str) : Fs :=
  fun q => if q = path then some content else fs q

/-- Rust `str::split(c)`: split a character sequence at every occurrence of
`c`.  Always returns at least one (possibly empty) piece; a trailing
separator yields a trailing empty piece, exactly as in Rust. -/
def splitChar (c : Char) : List Char → List (List Char)
  | [] => [[]]
  | x :: xs =>
    if x = c then [] :: splitChar c xs
    else
      match splitChar c xs with
      | [] => [[x]]
      | h :: t => (x :: h) :: t

/-- Split at the first occurrence of `c`, returning the pieces before and
after it, or `none` when `c` does not occur. -/
def splitFirstChar (c : Char) : List Char → Option (List Char × List Char)
  | [] => none
  | x :: xs =>
    if x = c then some ([], xs)
    else (splitFirstChar c xs).map (fun p => (x :: p.1, p.2))

/-- Rust `str::trim_left_matches(c)`: drop every leading occurrence of `c`. -/
def trimLeftChar (c : Char) (s : Str) : Str :=
  s.dropWhile (fun x => x = c)

/-- Rust `str::trim_right_matches(c)`: drop every trailing occurrence of `c`. -/
def trimRightChar (c : Char) (s : Str) : Str :=
  (s.reverse.dropWhile (fun x => x = c)).reverse

/-- Concatenation of a list of strings (Rust `String::push_str` in a loop). -/
def joinList (l : List Str) : Str :=
  l.foldr (fun a b => a ++ b) []

/-- Join lines, terminating each with a newline character. -/
def joinNL (lines : List Str) : Str :=
  joinList (lines.map (fun l => l ++ ['\n']))

theorem splitChar_ne_nil (c : Char) (l : List Char) : splitChar c l ≠ [] := by
  induction l with
  | nil => simp [splitChar]
  | cons x xs ih =>
    simp only [splitChar]
    by_cases h : x = c
    · simp [h]
    · simp only [h, if_false]
      cases hr : splitChar c xs with
      | nil => simp
      | cons a t => simp

theorem splitChar_of_not_mem (c : Char) (l : List Char) (h : c ∉ l) :
    splitChar c l = [l] := by
  induction l with
  | nil => rfl
  | cons x xs ih =>
    simp only [List.mem_cons, not_or] at h
    have hx : ¬ x = c := fun hxc => h.1 hxc.symm
    simp only [splitChar, hx, if_false]
    rw [ih h.2]

theorem splitChar_append_cons (c : Char) (l r : List Char) (h : c ∉ l) :
    splitChar c (l ++ c :: r) = l :: splitChar c r := by
  induction l with
  | nil => simp [splitChar]
  | cons x xs ih =>
    simp only [List.mem_cons, not_or] at h
    have hx : ¬ x = c := fun hxc => h.1 hxc.symm
    simp only [List.cons_append, splitChar, hx, if_false, List.append_eq]
    rw [ih h.2]

theorem splitChar_concat (c : Char) (l : List Char) (h : c ∉ l) :
    splitChar c (l ++ [c]) = [l, []] := by
  rw [splitChar_append_cons c l [] h]; rfl

theorem splitChar_joinNL (lines : List Str)
    (h : ∀ l ∈ lines, '\n' ∉ l) :
    splitChar '\n' (joinNL lines) = lines ++ [[]] := by
  induction lines with
  | nil => rfl
  | cons l ls ih =>
    have hl : '\n' ∉ l := h l (List.mem_cons_self l ls)
    have hrest : ∀ x ∈ ls, '\n' ∉ x := fun x hx => h x (List.mem_cons_of_mem l hx)
    have : joinNL (l :: ls) = l ++ '\n' :: joinNL ls := by
      simp [joinNL, joinList]
    rw [this, splitChar_append_cons '\n' l (joinNL ls) hl, ih hrest]
    rfl

theorem splitFirstChar_append (c : Char) (k v : List Char) (h : c ∉ k) :
    splitFirstChar c (k ++ c :: v) = some (k, v) := by
  induction k with
  | nil => simp [splitFirstChar]
  | cons x xs ih =>
    simp only [List.mem_cons, not_or] at h
    have hx : ¬ x = c := fun hxc => h.1 hxc.symm
    simp only [List.cons_append, splitFirstChar, hx, if_false, List.append_eq]
    rw [ih h.2]
    rfl

/-- Property bag of a vCard document.  Models the vobject crate's
`Component` (an external capability per the spec): a type name plus
properties as ordered key/value pairs.  `Property::new(x)` stores the raw
value and `value_as_string()` returns it, so a property is just its value
string here. -/
structure Component where
  name : Str
  props : List (Str × Str)
deriving DecidableEq

/-- Rust `Component::new(name)`: an empty property bag. -/
def Component.mkNew (name : Str) : Component :=
  { name := name, props := [] }

/-- Rust `component.all_props(key)`: every value stored under `key`, in
insertion order. -/
def Component.all_props (c : Component) (key : Str) : List Str :=
  c.props.filterMap (fun p => if p.1 = key then some p.2 else none)

/-- Rust `component.all_props_mut(key).push(Property::new(value))`: append
one value under `key`. -/
def Component.push_prop (c : Component) (key value : Str) : Component :=
  { c with props := c.props ++ [(key, value)] }

/-- Models vobject's `single_prop(key)`: the value under `key` when exactly
one is present, `none` otherwise (the spec requires "exactly a present"
full-name property). -/
def Component.single_prop (c : Component) (key : Str) : Option Str :=
  match c.all_props key with
  | [x] => some x
  | _ => none

/-- Rust `generate_component(uid, fullname, email)` (src/mates/cli.rs
lines 477-491): a "VCARD" component with an FN property when `fullname` is
present, an EMAIL property when `email` is present, and a UID property
holding `uid`. -/
def generate_component (uid : Str) (fullname email : Option Str) : Component :=
  let c0 := Component.mkNew "VCARD".data
  let c1 := match fullname with
    | some x => c0.push_prop "FN".data x
    | none => c0
  let c2 := match email with
    | some x => c1.push_prop "EMAIL".data x
    | none => c1
  c2.push_prop "UID".data uid

/-- One serialized property line `key:value`. -/
def propLine (p : Str × Str) : Str :=
  p.1 ++ ':' :: p.2

/-- Models vobject's `write_component` (an external capability: serialize a
property-bag document): a BEGIN line, one line per property, and an END
line, each newline-terminated. -/
def write_component (c : Component) : Str :=
  joinNL (("BEGIN".data ++ ':' :: c.name) :: c.props.map propLine
    ++ ["END".data ++ ':' :: c.name])

/-- Parse the property lines between BEGIN and END. -/
def parseProps : List Str → Except Str (List (Str × Str))
  | [] => Except.ok []
  | line :: rest =>
    match splitFirstChar ':' line with
    | none => Except.error "malformed property line".data
    | some (k, v) => (parseProps rest).map (fun ps => (k, v) :: ps)

/-- Parse a component from its list of non-blank lines: a BEGIN line,
property lines, and a matching END line. -/
def parse_component_lines : List Str → Except Str Component
  | [] => Except.error "empty component".data
  | first :: rest =>
    match splitFirstChar ':' first with
    | none => Except.error "expected BEGIN line".data
    | some (tag, cname) =>
      if tag = "BEGIN".data then
        match rest.getLast? with
        | none => Except.error "missing END line".data
        | some lastLine =>
          if lastLine = "END".data ++ ':' :: cname then
            (parseProps rest.dropLast).map (fun ps => { name := cname, props := ps })
          else Except.error "mismatched END line".data
      else Except.error "expected BEGIN line".data

/-- Models vobject's `parse_component` (an external capability: parse a
property-bag document): blank lines are ignored; anything not shaped as a
BEGIN/properties/END document is an error. -/
def parse_component (s : Str) : Except Str Component :=
  parse_component_lines ((splitChar '\n' s).filter (fun l => !l.isEmpty))

/-- Keys, values and the component name that serialize one per line and
parse back unambiguously: no embedded newline, and no colon in keys or in
the component name. -/
def wfComponent (c : Component) : Prop :=
  '\n' ∉ c.name ∧ ':' ∉ c.name ∧
    ∀ p ∈ c.props, ('\n' ∉ p.1 ∧ ':' ∉ p.1) ∧ '\n' ∉ p.2

instance (c : Component) : Decidable (wfComponent c) := by
  unfold wfComponent
  infer_instance

theorem parseProps_map_propLine (ps : List (Str × Str))
    (h : ∀ p ∈ ps, ':' ∉ p.1) :
    parseProps (ps.map propLine) = Except.ok ps := by
  induction ps with
  | nil => rfl
  | cons p rest ih =>
    have hp : ':' ∉ p.1 := (h p (List.mem_cons_self p rest))
    have hrest : ∀ q ∈ rest, ':' ∉ q.1 := fun q hq => h q (List.mem_cons_of_mem p hq)
    simp only [List.map_cons, parseProps, propLine]
    rw [splitFirstChar_append ':' p.1 p.2 hp, ih hrest]
    rfl

theorem parse_write_component (c : Component) (h : wfComponent c) :
    parse_component (write_component c) = Except.ok c := by
  obtain ⟨hn, hcn, hp⟩ := h
  have hBeginLine : '\n' ∉ "BEGIN".data ++ ':' :: c.name := by
    intro hmem
    rcases List.mem_append.mp hmem with h1 | h1
    · exact absurd h1 (by decide)
    · rcases List.mem_cons.mp h1 with h2 | h2
      · exact absurd h2 (by decide)
      · exact hn h2
  have hEndLine : '\n' ∉ "END".data ++ ':' :: c.name := by
    intro hmem
    rcases List.mem_append.mp hmem with h1 | h1
    · exact absurd h1 (by decide)
    · rcases List.mem_cons.mp h1 with h2 | h2
      · exact absurd h2 (by decide)
      · exact hn h2
  have hlines : ∀ l ∈ ("BEGIN".data ++ ':' :: c.name) :: c.props.map propLine
      ++ ["END".data ++ ':' :: c.name], '\n' ∉ l := by
    intro l hl
    rcases List.mem_append.mp hl with h1 | h1
    · rcases List.mem_cons.mp h1 with h2 | h2
      · rw [h2]; exact hBeginLine
      · obtain ⟨p, hpmem, rfl⟩ := List.mem_map.mp h2
        intro hmem
        rcases List.mem_append.mp hmem with h3 | h3
        · exact ((hp p hpmem).1.1) h3
        · rcases List.mem_cons.mp h3 with h4 | h4
          · exact absurd h4 (by decide)
          · exact ((hp p hpmem).2) h4
    · rcases List.mem_cons.mp h1 with h2 | h2
      · rw [h2]; exact hEndLine
      · cases h2
  have hsplit := splitChar_joinNL _ hlines
  have hne : ∀ l ∈ ("BEGIN".data ++ ':' :: c.name) :: c.props.map propLine
      ++ ["END".data ++ ':' :: c.name], !l.isEmpty := by
    intro l hl
    rcases List.mem_append.mp hl with h1 | h1
    · rcases List.mem_cons.mp h1 with h2 | h2
      · rw [h2]; rfl
      · obtain ⟨p, hpmem, rfl⟩ := List.mem_map.mp h2
        cases hk : p.1 with
        | nil => simp [propLine, hk]
        | cons a b => simp [propLine, hk]
    · rcases List.mem_cons.mp h1 with h2 | h2
      · rw [h2]; rfl
      · cases h2
  have hfilter : (splitChar '\n' (write_component c)).filter (fun l => !l.isEmpty)
      = ("BEGIN".data ++ ':' :: c.name) :: (c.props.map propLine
          ++ ["END".data ++ ':' :: c.name]) := by
    rw [write_component, hsplit]
    rw [show (("BEGIN".data ++ ':' :: c.name) :: c.props.map propLine
        ++ ["END".data ++ ':' :: c.name]) ++ [[]]
        = (("BEGIN".data ++ ':' :: c.name) :: c.props.map propLine
        ++ ["END".data ++ ':' :: c.name]) ++ [([] : Str)] from rfl]
    rw [List.filter_append, List.filter_eq_self.mpr hne]
    simp
  unfold parse_component
  rw [hfilter]
  simp only [parse_component_lines,
    splitFirstChar_append ':' "BEGIN".data c.name (by decide),
    List.getLast?_concat, List.dropLast_concat, if_pos rfl,
    parseProps_map_propLine c.props (fun p hpm => (hp p hpm).1.2)]
  rfl

/-- Rust `struct Contact` (src/mates/cli.rs lines 430-433): a parsed
document plus the file path holding it. -/
structure Contact where
  component : Component
  path : Str
deriving DecidableEq

/-- Rust `Contact::from_file(path)` (lines 436-448), with the file content
passed explicitly: parse the content as a component; a parse failure is an
error and never yields a partially built contact. -/
def Contact.from_file (path content : Str) : Except Str Contact :=
  match parse_component content with
  | Except.error e => Except.error e
  | Except.ok item => Except.ok { component := item, path := path }

/-- The contact path Rust builds as `dir.join(format!("{}.vcf", uid))`. -/
def contactPath (dir uid : Str) : Str :=
  dir ++ '/' :: uid ++ ".vcf".data

/-- The uid-search loop inside `Contact::generate` (lines 451-462): draw
candidate identifiers in order (modelling successive `Uuid::new_v4()`
draws) and keep the first whose path does not already exist, together with
that path. -/
def findFresh (fs : Fs) (dir : Str) : List Str → Option (Str × Str)
  | [] => none
  | uid :: rest =>
    let path := contactPath dir uid
    if (fs path).isSome then findFresh fs dir rest else some (uid, path)

/-- Rust `Contact::generate(fullname, email, dir)` (lines 450-464), with
the filesystem and the stream of random identifier draws explicit: pick a
fresh identifier and build the component via `generate_component`.
Returns `none` only when every supplied candidate identifier collides. -/
def Contact.generate (fs : Fs) (fullname email : Option Str) (dir : Str)
    (uids : List Str) : Option Contact :=
  (findFresh fs dir uids).map
    (fun p => { path := p.2, component := generate_component p.1 fullname email })

/-- Error produced by the atomicwrites crate when `DisallowOverwrite` hits
an existing file. -/
def alreadyExistsError : Str :=
  "AlreadyExists".data

/-- Rust `Contact::write_create` (lines 466-473).  Models the atomicwrites
crate's `AtomicFile` with `DisallowOverwrite` (an external capability, per
the spec an exclusive create-or-fail primitive): when a file already exists
at the contact's path the write fails and the filesystem is unchanged;
otherwise the serialized component is stored there.  Returns the command
result together with the resulting filesystem. -/
def Contact.write_create (fs : Fs) (c : Contact) : Except Str Unit × Fs :=
  if (fs c.path).isSome then (Except.error alreadyExistsError, fs)
  else (Except.ok (), Fs.insert fs c.path (write_component c.component))

/-- Rust `index_item_from_contact` (lines 124-140): require exactly one FN
property, then emit one `email<TAB>name<TAB>path<NEWLINE>` row per EMAIL
property. -/
def index_item_from_contact (c : Contact) : Except Str Str :=
  match c.component.single_prop "FN".data with
  | none => Except.error "No name found.".data
  | some name =>
    Except.ok (joinList ((c.component.all_props "EMAIL".data).map
      (fun email => email ++ '\t' :: name ++ '\t' :: c.path ++ ['\n'])))

/-- One entry of the contact directory as `build_index` sees it: its full
path, whether it is a regular file, and the file's content. -/
structure DirEntry where
  path : Str
  isFile : Bool
  content : Str
deriving DecidableEq

/-- Last path component, as Rust `Path::filename_str`. -/
def filenameOf (p : Str) : Str :=
  (splitChar '/' p).getLastD []

/-- The candidate check in `build_index` (line 85): regular files whose
filename ends in `.vcf`. -/
def DirEntry.isVcf (e : DirEntry) : Bool :=
  e.isFile && ".vcf".data.isSuffixOf (filenameOf e.path)

/-- One iteration of the `build_index` loop (lines 84-108) over the state
(index text written so far, errors flag): skip non-candidates; a parse
failure or a missing name sets the non-fatal errors flag and moves on;
otherwise the contact's rows are appended to the index text. -/
def buildStep (st : Str × Bool) (e : DirEntry) : Str × Bool :=
  if !e.isVcf then st
  else
    match Contact.from_file e.path e.content with
    | Except.error _ => (st.1, true)
    | Except.ok contact =>
      match index_item_from_contact contact with
      | Except.ok s => (st.1 ++ s, st.2)
      | Except.error _ => (st.1, true)

/-- The `build_index` loop (lines 79-110): fold over the directory
entries, producing the written index text and the errors flag. -/
def build_index_loop (entries : List DirEntry) : Str × Bool :=
  entries.foldl buildStep ([], false)

/-- Rust `build_index` (lines 70-121), for an existing directory with
infallible file I/O: the atomically replaced index content is always
written, and the call fails exactly when the errors flag was set. -/
def build_index (entries : List DirEntry) : Except Str Unit × Str :=
  let st := build_index_loop entries
  (if st.2 then
      Except.error "Several errors happened while generating the index.".data
    else Except.ok (),
   st.1)

/-- The rows a single directory entry contributes to the index: empty when
it fails to parse or has no single FN property. -/
def entryRows (e : DirEntry) : Str :=
  match Contact.from_file e.path e.content with
  | Except.error _ => []
  | Except.ok c =>
    match index_item_from_contact c with
    | Except.ok s => s
    | Except.error _ => []

/-- Whether a directory entry is processed without a per-file or
per-contact error: it parses and yields index rows. -/
def entryOk (e : DirEntry) : Bool :=
  match Contact.from_file e.path e.content with
  | Except.error _ => false
  | Except.ok c =>
    match index_item_from_contact c with
    | Except.ok _ => true
    | Except.error _ => false

/-- Rust `struct IndexItem` (lines 387-391): one record of a query
result. -/
structure IndexItem where
  email : Str
  name : Str
  filepath : Str
deriving DecidableEq

/-- Rust `IndexItem::new(line)` (lines 393-403): split the line on tab and
take up to three fields via successive `next()` calls, each defaulting to
the empty string. -/
def IndexItem.new (line : Str) : IndexItem :=
  let parts := splitChar '\t' line
  { email := parts.headD []
    name := (parts.drop 1).headD []
    filepath := (parts.drop 2).headD [] }

/-- Rust `IndexIterator::new(output)` (lines 410-416): collect the lines of
the filter process's output into the line buffer, in output order. -/
def IndexIterator.new (output : Str) : List Str :=
  splitChar '\n' output

/-- Rust `IndexIterator::next` (lines 422-427): `Vec::pop` removes the
LAST line of the buffer and turns it into a record. -/
def IndexIterator.next (buf : List Str) : Option (IndexItem × List Str) :=
  match buf.getLast? with
  | none => none
  | some x => some (IndexItem.new x, buf.dropLast)

/-- Repeatedly call `IndexIterator.next` until exhaustion; `fuel` bounds
the number of iterations (the buffer length suffices). -/
def drainFrom : Nat → List Str → List IndexItem
  | 0, _ => []
  | fuel + 1, buf =>
    match IndexIterator.next buf with
    | none => []
    | some (item, rest) => item :: drainFrom fuel rest

/-- The record sequence a query consumer observes: all records produced by
successive `IndexIterator.next` calls on the line buffer built from the
filter process's output (lines 362-385 feed that output in). -/
def queryRecords (output : Str) : List IndexItem :=
  let linebuffer := IndexIterator.new output
  drainFrom linebuffer.length linebuffer

/-- The line `email<TAB>name<TAB>filepath` printed by `mutt_query`. -/
def muttLine (r : IndexItem) : Str :=
  r.email ++ '\t' :: r.name ++ '\t' :: r.filepath

/-- The line `name <email>` printed by `email_query`. -/
def emailLine (r : IndexItem) : Str :=
  r.name ++ ' ' :: '<' :: r.email ++ ['>']

/-- Rust `mutt_query` (lines 334-342) as the list of lines it prints for a
record sequence: one unconditional empty line, then the loop printing
`email<TAB>name<TAB>filepath` for records with non-empty email and name. -/
def mutt_query (records : List IndexItem) : List Str :=
  [] :: records.foldl
    (fun acc r =>
      if 0 < r.email.length && 0 < r.name.length then acc ++ [muttLine r] else acc)
    []

/-- Rust `file_query` (lines 344-351) as the list of lines it prints:
`filepath` for records with non-empty filepath. -/
def file_query (records : List IndexItem) : List Str :=
  records.foldl
    (fun acc r => if 0 < r.filepath.length then acc ++ [r.filepath] else acc)
    []

/-- Rust `email_query` (lines 353-360) as the list of lines it prints:
`name <email>` for records with non-empty name and email. -/
def email_query (records : List IndexItem) : List Str :=
  records.foldl
    (fun acc r =>
      if 0 < r.name.length && 0 < r.email.length then acc ++ [emailLine r] else acc)
    []

/-- Strip a leading run of `<` and a trailing run of `>` (lines 253-254:
`trim_left_matches` then `trim_right_matches`). -/
def stripAngles (s : Str) : Str :=
  trimRightChar '>' (trimLeftChar '<' s)

/-- Rust `str::rsplitn(1, sep)` of that era: split at most once, starting
from the end; pieces are yielded end-first. -/
def rsplitn1 (sep : Char) (s : Str) : List Str :=
  match splitFirstChar sep s.reverse with
  | none => [s]
  | some p => [p.1.reverse, p.2.reverse]

/-- Rust `parse_from_header` (lines 251-259): split the header value on the
last space; the piece after it, with angle brackets stripped, is the email;
the piece before it (when the split happened) is the name. -/
def parse_from_header (s : Str) : Option Str × Option Str :=
  let split := rsplitn1 ' ' s
  let email := match split.head? with
    | some x => some (stripAngles x)
    | none => some s
  let name := (split.drop 1).head?
  (name, email)

theorem splitFirstChar_of_not_mem (c : Char) (l : List Char) (h : c ∉ l) :
    splitFirstChar c l = none := by
  induction l with
  | nil => rfl
  | cons x xs ih =>
    simp only [List.mem_cons, not_or] at h
    have hx : ¬ x = c := fun hxc => h.1 hxc.symm
    simp only [splitFirstChar, hx, if_false]
    rw [ih h.2]
    rfl

theorem splitChar_append_last (c : Char) (l : List Char) :
    splitChar c (l ++ [c]) = splitChar c l ++ [[]] := by
  induction l with
  | nil => simp [splitChar]
  | cons x xs ih =>
    by_cases hx : x = c
    · subst hx
      have h1 : splitChar x (x :: (xs ++ [x])) = [] :: splitChar x (xs ++ [x]) := by
        simp [splitChar]
      have h2 : splitChar x (x :: xs) = [] :: splitChar x xs := by
        simp [splitChar]
      rw [List.cons_append, h1, ih, h2]
      rfl
    · have h1 : splitChar c (x :: (xs ++ [c])) =
          match splitChar c (xs ++ [c]) with
          | [] => [[x]]
          | h :: t => (x :: h) :: t := by
        simp [splitChar, hx]
      have h2 : splitChar c (x :: xs) =
          match splitChar c xs with
          | [] => [[x]]
          | h :: t => (x :: h) :: t := by
        simp [splitChar, hx]
      rw [List.cons_append, h1, h2, ih]
      cases hr : splitChar c xs with
      | nil => exact absurd hr (splitChar_ne_nil c xs)
      | cons h t => rfl

theorem drainFrom_eq (fuel : Nat) (l : List Str) (h : l.length ≤ fuel) :
    drainFrom fuel l = l.reverse.map IndexItem.new := by
  induction fuel generalizing l with
  | zero =>
    have : l = [] := List.eq_nil_of_length_eq_zero (Nat.le_zero.mp h)
    subst this
    rfl
  | succ fuel ih =>
    rcases List.eq_nil_or_concat l with rfl | ⟨L, b, rfl⟩
    · rfl
    · rw [List.concat_eq_append] at *
      have hnext : IndexIterator.next (L ++ [b]) = some (IndexItem.new b, L) := by
        simp [IndexIterator.next, List.getLast?_concat, List.dropLast_concat]
      have hlen : L.length ≤ fuel := by
        have := h
        simp only [List.length_append, List.length_cons, List.length_nil] at this
        omega
      simp only [drainFrom, hnext, ih L hlen]
      simp

theorem queryRecords_eq (output : Str) :
    queryRecords output = (splitChar '\n' output).reverse.map IndexItem.new := by
  unfold queryRecords IndexIterator.new
  exact drainFrom_eq _ _ le_rfl

theorem foldl_emit {α β : Type} (f : α → Bool) (g : α → β) (l : List α)
    (acc : List β) :
    l.foldl (fun a x => if f x then a ++ [g x] else a) acc
      = acc ++ (l.filter f).map g := by
  induction l generalizing acc with
  | nil => simp
  | cons x xs ih =>
    simp only [List.foldl_cons, ih]
    by_cases hx : f x
    · simp [hx]
    · simp [hx]

theorem build_index_loop_eq (entries : List DirEntry) (acc : Str × Bool) :
    entries.foldl buildStep acc
      = (acc.1 ++ joinList ((entries.filter (fun e => e.isVcf)).map entryRows),
         acc.2 || entries.any (fun e => e.isVcf && !entryOk e)) := by
  induction entries generalizing acc with
  | nil => simp [joinList]
  | cons e es ih =>
    simp only [List.foldl_cons, ih]
    by_cases hv : e.isVcf
    · cases hff : Contact.from_file e.path e.content with
      | error err =>
        have hrow : entryRows e = [] := by simp [entryRows, hff]
        have hok : entryOk e = false := by simp [entryOk, hff]
        have hstep : buildStep acc e = (acc.1, true) := by
          simp [buildStep, hv, hff]
        rw [hstep]
        simp [hv, hrow, hok, joinList]
      | ok contact =>
        cases hii : index_item_from_contact contact with
        | ok s =>
          have hrow : entryRows e = s := by simp [entryRows, hff, hii]
          have hok : entryOk e = true := by simp [entryOk, hff, hii]
          have hstep : buildStep acc e = (acc.1 ++ s, acc.2) := by
            simp [buildStep, hv, hff, hii]
          rw [hstep]
          simp [hv, hrow, hok, joinList, List.append_assoc]
        | error err =>
          have hrow : entryRows e = [] := by simp [entryRows, hff, hii]
          have hok : entryOk e = false := by simp [entryOk, hff, hii]
          have hstep : buildStep acc e = (acc.1, true) := by
            simp [buildStep, hv, hff, hii]
          rw [hstep]
          simp [hv, hrow, hok, joinList]
    · have hstep : buildStep acc e = acc := by simp [buildStep, hv]
      rw [hstep]
      simp [hv]

theorem generate_component_name (uid : Str) (fullname email : Option Str) :
    (generate_component uid fullname email).name = "VCARD".data := by
  cases fullname <;> cases email <;> rfl

theorem generate_component_FN (uid : Str) (fullname email : Option Str) :
    (generate_component uid fullname email).all_props "FN".data
      = fullname.toList := by
  cases fullname <;> cases email <;> rfl

theorem generate_component_EMAIL (uid : Str) (fullname email : Option Str) :
    (generate_component uid fullname email).all_props "EMAIL".data
      = email.toList := by
  cases fullname <;> cases email <;> rfl

theorem generate_component_UID (uid : Str) (fullname email : Option Str) :
    (generate_component uid fullname email).all_props "UID".data = [uid] := by
  cases fullname <;> cases email <;> rfl

theorem findFresh_spec (fs : Fs) (dir : Str) (uids : List Str) (uid path : Str)
    (h : findFresh fs dir uids = some (uid, path)) :
    path = contactPath dir uid ∧ fs path = none ∧ uid ∈ uids := by
  induction uids with
  | nil => cases h
  | cons u rest ih =>
    by_cases hex : (fs (contactPath dir u)).isSome
    · have h2 : findFresh fs dir rest = some (uid, path) := by
        simpa [findFresh, hex] using h
      obtain ⟨h3, h4, h5⟩ := ih h2
      exact ⟨h3, h4, List.mem_cons_of_mem u h5⟩
    · have h2 : u = uid ∧ contactPath dir u = path := by
        have h3 := h
        simp [findFresh, hex] at h3
        exact h3
      obtain ⟨rfl, rfl⟩ := h2
      exact ⟨rfl, Option.not_isSome_iff_eq_none.mp hex,
        List.mem_cons_self u rest⟩

theorem wf_generate_component (uid : Str) (fullname email : Option Str)
    (hu : '\n' ∉ uid)
    (hfn : ∀ x, fullname = some x → '\n' ∉ x)
    (hem : ∀ x, email = some x → '\n' ∉ x) :
    wfComponent (generate_component uid fullname email) := by
  have hVC1 : '\n' ∉ (generate_component uid fullname email).name := by
    rw [generate_component_name]
    decide
  have hVC2 : ':' ∉ (generate_component uid fullname email).name := by
    rw [generate_component_name]
    decide
  refine ⟨hVC1, hVC2, ?_⟩
  have hFN : ('\n' ∉ "FN".data ∧ ':' ∉ "FN".data) := by decide
  have hEM : ('\n' ∉ "EMAIL".data ∧ ':' ∉ "EMAIL".data) := by decide
  have hUID : ('\n' ∉ "UID".data ∧ ':' ∉ "UID".data) := by decide
  intro p hp
  cases fullname with
  | none =>
    cases email with
    | none =>
      simp [generate_component, Component.mkNew, Component.push_prop] at hp
      subst hp
      exact ⟨hUID, hu⟩
    | some em =>
      simp [generate_component, Component.mkNew, Component.push_prop] at hp
      rcases hp with hp | hp <;> subst hp
      · exact ⟨hEM, hem em rfl⟩
      · exact ⟨hUID, hu⟩
  | some fn =>
    cases email with
    | none =>
      simp [generate_component, Component.mkNew, Component.push_prop] at hp
      rcases hp with hp | hp <;> subst hp
      · exact ⟨hFN, hfn fn rfl⟩
      · exact ⟨hUID, hu⟩
    | some em =>
      simp [generate_component, Component.mkNew, Component.push_prop] at hp
      rcases hp with hp | hp | hp <;> subst hp
      · exact ⟨hFN, hfn fn rfl⟩
      · exact ⟨hEM, hem em rfl⟩
      · exact ⟨hUID, hu⟩

theorem mutt_query_aux (records : List IndexItem) (acc : List Str) :
    records.foldl
      (fun acc r =>
        if 0 < r.email.length && 0 < r.name.length then acc ++ [muttLine r]
        else acc)
      acc
      = acc ++ (records.filter
          (fun r => 0 < r.email.length && 0 < r.name.length)).map muttLine := by
  induction records generalizing acc with
  | nil => simp
  | cons r rs ih =>
    simp only [List.foldl_cons, ih]
    by_cases hr : (decide (0 < r.email.length) && decide (0 < r.name.length)) = true
    · simp [hr]
    · simp [hr]

theorem file_query_aux (records : List IndexItem) (acc : List Str) :
    records.foldl
      (fun acc r => if 0 < r.filepath.length then acc ++ [r.filepath] else acc)
      acc
      = acc ++ (records.filter (fun r => decide (0 < r.filepath.length))).map
          (fun r => r.filepath) := by
  induction records generalizing acc with
  | nil => simp
  | cons r rs ih =>
    simp only [List.foldl_cons, ih]
    by_cases hr : 0 < r.filepath.length
    · simp [hr]
    · simp [hr]

theorem email_query_aux (records : List IndexItem) (acc : List Str) :
    records.foldl
      (fun acc r =>
        if 0 < r.name.length && 0 < r.email.length then acc ++ [emailLine r]
        else acc)
      acc
      = acc ++ (records.filter
          (fun r => 0 < r.name.length && 0 < r.email.length)).map emailLine := by
  induction records generalizing acc with
  | nil => simp
  | cons r rs ih =>
    simp only [List.foldl_cons, ih]
    by_cases hr : (decide (0 < r.name.length) && decide (0 < r.email.length)) = true
    · simp [hr]
    · simp [hr]

/-- Claim C1.  The claim says the i-th line of the filter process's output
yields the i-th record; the spec itself flags the source as buggy here
(section 9, open question 2).  This theorem records the code's actual
behavior at a two-line filter output: the records come out in reverse line
order, preceded by a record built from the trailing empty line, because
`IndexIterator::next` pops from the end of the line buffer. -/
theorem claim_C1_behavior :
    queryRecords "a@x.com\tAlice\t/p/1.vcf\nb@y.com\tBob\t/p/2.vcf\n".data
      = [{ email := [], name := [], filepath := [] },
         { email := "b@y.com".data, name := "Bob".data,
           filepath := "/p/2.vcf".data },
         { email := "a@x.com".data, name := "Alice".data,
           filepath := "/p/1.vcf".data }] := by
  decide

/-- Claim C4, counterexample.  The claim says the single trailing empty
line produced by a final newline is discarded and not turned into a
record.  At the one-row output `"a@x.com\tAlice\t/p/1.vcf\n"` the engine
produces TWO records, the first of which is built from the trailing empty
line with every field empty. -/
theorem claim_C4_counterexample :
    queryRecords "a@x.com\tAlice\t/p/1.vcf\n".data
      = [{ email := [], name := [], filepath := [] },
         { email := "a@x.com".data, name := "Alice".data,
           filepath := "/p/1.vcf".data }] := by
  decide

/-- Claim C4 (amended).  When the filter output ends in a newline, the
trailing empty line is NOT discarded: it becomes the first record produced
and all three of its fields are empty (every output projection later
filters it out).  Every line is split on tab into up to three fields
(email, name, filepath), and missing trailing fields default to the empty
string. -/
theorem claim_C4_thm :
    (∀ out : Str, queryRecords (out ++ ['\n'])
        = IndexItem.new [] :: ((splitChar '\n' out).reverse.map IndexItem.new)) ∧
    IndexItem.new [] = { email := [], name := [], filepath := [] } ∧
    (∀ e : Str, '\t' ∉ e →
      IndexItem.new e = { email := e, name := [], filepath := [] }) ∧
    (∀ e n : Str, '\t' ∉ e → '\t' ∉ n →
      IndexItem.new (e ++ '\t' :: n)
        = { email := e, name := n, filepath := [] }) ∧
    (∀ e n f : Str, '\t' ∉ e → '\t' ∉ n → '\t' ∉ f →
      IndexItem.new (e ++ '\t' :: n ++ '\t' :: f)
        = { email := e, name := n, filepath := f }) := by
  refine ⟨?_, rfl, ?_, ?_, ?_⟩
  · intro out
    rw [queryRecords_eq, splitChar_append_last, List.reverse_append]
    rfl
  · intro e he
    simp [IndexItem.new, splitChar_of_not_mem '\t' e he]
  · intro e n he hn
    simp [IndexItem.new, splitChar_append_cons '\t' e n he,
      splitChar_of_not_mem '\t' n hn]
  · intro e n f he hn hf
    simp [IndexItem.new, splitChar_append_cons '\t' e (n ++ '\t' :: f) he,
      splitChar_append_cons '\t' n f hn, splitChar_of_not_mem '\t' f hf]

/-- Witness for claim C4's amended theorem at a concrete two-field line. -/
theorem claim_C4_witness :
    IndexItem.new ("a@x".data ++ '\t' :: "Ann".data)
      = { email := "a@x".data, name := "Ann".data, filepath := [] } :=
  claim_C4_thm.2.2.2.1 "a@x".data "Ann".data (by decide) (by decide)

/-- Claim C6.  The sender heuristic splits on the last space: the piece
after the last space, with leading angle brackets and trailing angle
brackets stripped, is the email; the piece before it is the name; with no
space at all the whole value is the address token (same stripping) and the
name is absent.  Includes the two examples named by the claim. -/
theorem claim_C6_thm :
    (∀ s : Str, ' ' ∉ s → parse_from_header s = (none, some (stripAngles s))) ∧
    (∀ before after : Str, ' ' ∉ after →
      parse_from_header (before ++ ' ' :: after)
        = (some before, some (stripAngles after))) ∧
    parse_from_header "John Doe <john@x.com>".data
      = (some "John Doe".data, some "john@x.com".data) ∧
    parse_from_header "john@x.com".data = (none, some "john@x.com".data) := by
  refine ⟨?_, ?_, by decide, by decide⟩
  · intro s hs
    have hrev : ' ' ∉ s.reverse := fun hmem => hs (List.mem_reverse.mp hmem)
    unfold parse_from_header rsplitn1
    rw [splitFirstChar_of_not_mem ' ' s.reverse hrev]
    rfl
  · intro before after hafter
    have hrev : ' ' ∉ after.reverse := fun hmem => hafter (List.mem_reverse.mp hmem)
    unfold parse_from_header rsplitn1
    rw [show (before ++ ' ' :: after).reverse
        = after.reverse ++ ' ' :: before.reverse by simp]
    rw [splitFirstChar_append ' ' after.reverse before.reverse hrev]
    simp

/-- Witness for claim C6 at a concrete one-space header value. -/
theorem claim_C6_witness :
    parse_from_header ("Ann".data ++ ' ' :: "<a@x>".data)
      = (some "Ann".data, some "a@x".data) := by
  have h := claim_C6_thm.2.1 "Ann".data "<a@x>".data (by decide)
  rw [h]
  decide

/-- Claim C7.  Each output projection is a pure filter-and-format of the
record sequence: mutt format prints `email<TAB>name<TAB>filepath` exactly
for records with non-empty email and name (after its leading empty line),
file format prints `filepath` exactly for records with non-empty filepath,
and email format prints `name <email>` exactly for records with non-empty
name and email; hence an empty-name record reaches file-format output
(when its filepath is non-empty) but never mutt or email format output. -/
theorem claim_C7_thm (records : List IndexItem) :
    mutt_query records
      = [] :: (records.filter
          (fun r => 0 < r.email.length && 0 < r.name.length)).map muttLine ∧
    file_query records
      = (records.filter (fun r => decide (0 < r.filepath.length))).map
          (fun r => r.filepath) ∧
    email_query records
      = (records.filter
          (fun r => 0 < r.name.length && 0 < r.email.length)).map emailLine ∧
    (∀ r ∈ records.filter (fun r => 0 < r.email.length && 0 < r.name.length),
      r.name ≠ []) ∧
    (∀ r ∈ records.filter (fun r => 0 < r.name.length && 0 < r.email.length),
      r.name ≠ []) ∧
    (∀ r ∈ records, r.name = [] → 0 < r.filepath.length →
      r.filepath ∈ file_query records) := by
  have hm := mutt_query_aux records []
  have hf := file_query_aux records []
  have he := email_query_aux records []
  refine ⟨?_, ?_, ?_, ?_, ?_, ?_⟩
  · unfold mutt_query
    rw [hm]
    rfl
  · unfold file_query
    rw [hf]
    rfl
  · unfold email_query
    rw [he]
    rfl
  · intro r hr hempty
    have h2 := (List.mem_filter.mp hr).2
    simp only [Bool.and_eq_true, decide_eq_true_eq] at h2
    rw [hempty] at h2
    simp at h2
  · intro r hr hempty
    have h2 := (List.mem_filter.mp hr).2
    simp only [Bool.and_eq_true, decide_eq_true_eq] at h2
    rw [hempty] at h2
    simp at h2
  · intro r hr hempty hpath
    have hfq : file_query records
        = (records.filter (fun r => decide (0 < r.filepath.length))).map
            (fun r => r.filepath) := by
      unfold file_query
      rw [hf]
      rfl
    rw [hfq]
    exact List.mem_map.mpr
      ⟨r, List.mem_filter.mpr ⟨hr, by simpa using hpath⟩, rfl⟩

/-- Witness for claim C7: a record with an empty name but a non-empty
filepath appears in file-format output. -/
theorem claim_C7_witness :
    "f".data ∈ file_query
      [{ email := "e".data, name := [], filepath := "f".data }] :=
  (claim_C7_thm
      [{ email := "e".data, name := [], filepath := "f".data }]).2.2.2.2.2
    { email := "e".data, name := [], filepath := "f".data }
    (List.mem_singleton.mpr rfl) rfl (by decide)

/-- Claim C9.  The mutt-format query prints one empty line before any
record lines, even when no record matches. -/
theorem claim_C9_thm (records : List IndexItem) :
    (mutt_query records).head? = some [] ∧ mutt_query [] = [[]] := by
  constructor
  · unfold mutt_query
    rfl
  · rfl

/-- Claim C2.  During an index rebuild a file that fails to parse, or a
parsed contact without the required full-name property, is a non-fatal
error: the written index is exactly the concatenation of the rows of every
candidate entry that succeeded (so all other valid contacts' rows are
present), and the build call returns success precisely when no candidate
entry failed. -/
theorem claim_C2_thm (entries : List DirEntry) :
    (build_index entries).2
      = joinList ((entries.filter (fun e => e.isVcf)).map entryRows) ∧
    ((build_index entries).1 = Except.ok ()
      ↔ entries.any (fun e => e.isVcf && !entryOk e) = false) := by
  have hloop : build_index_loop entries
      = (joinList ((entries.filter (fun e => e.isVcf)).map entryRows),
         entries.any (fun e => e.isVcf && !entryOk e)) := by
    unfold build_index_loop
    rw [build_index_loop_eq entries ([], false)]
    simp
  constructor
  · unfold build_index
    rw [hloop]
  · unfold build_index
    rw [hloop]
    cases hany : entries.any (fun e => e.isVcf && !entryOk e) with
    | true => simp
    | false => simp

/-- Witness for claim C2 on a directory holding one unparsable file and
one valid contact (the spec's own example): success is reported exactly
when no candidate entry failed. -/
theorem claim_C2_witness :
    ((build_index
        [{ path := "d/bad.vcf".data, isFile := true, content := "garbage".data },
         { path := "d/u0.vcf".data, isFile := true,
           content := write_component
             (generate_component "u0".data (some "Ali".data)
               (some "a@x.com".data)) }]).1 = Except.ok ()
      ↔ [{ path := "d/bad.vcf".data, isFile := true,
           content := "garbage".data },
         { path := "d/u0.vcf".data, isFile := true,
           content := write_component
             (generate_component "u0".data (some "Ali".data)
               (some "a@x.com".data)) }].any
          (fun e => e.isVcf && !entryOk e) = false) :=
  (claim_C2_thm
    [{ path := "d/bad.vcf".data, isFile := true, content := "garbage".data },
     { path := "d/u0.vcf".data, isFile := true,
       content := write_component
         (generate_component "u0".data (some "Ali".data)
           (some "a@x.com".data)) }]).2

/-- Claim C3.  `write_create` is an exclusive create: when a file already
exists at the contact's path it fails with the AlreadyExists error and the
filesystem — including the existing file's content — is unchanged; when it
succeeds the path was previously empty, now holds the serialized contact,
and no other path changed, so an existing file is never overwritten. -/
theorem claim_C3_thm (fs : Fs) (c : Contact) :
    ((fs c.path).isSome = true →
      (Contact.write_create fs c).1 = Except.error alreadyExistsError ∧
      (Contact.write_create fs c).2 = fs) ∧
    ((Contact.write_create fs c).1 = Except.ok () →
      fs c.path = none ∧
      (Contact.write_create fs c).2 c.path = some (write_component c.component) ∧
      ∀ p, p ≠ c.path → (Contact.write_create fs c).2 p = fs p) := by
  by_cases h : (fs c.path).isSome = true
  · constructor
    · intro _
      constructor
      · simp [Contact.write_create, h]
      · simp [Contact.write_create, h]
    · intro hok
      exfalso
      simp [Contact.write_create, h] at hok
  · constructor
    · intro h2
      exact absurd h2 h
    · intro _
      refine ⟨Option.not_isSome_iff_eq_none.mp (by simpa using h), ?_, ?_⟩
      · simp [Contact.write_create, h, Fs.insert]
      · intro p hp
        simp [Contact.write_create, h, Fs.insert, hp]

/-- Witness for claim C3: writing a contact whose path already holds a
file fails with AlreadyExists and leaves the filesystem unchanged. -/
theorem claim_C3_witness :
    (Contact.write_create
        (fun p => if p = "d/u.vcf".data then some "old".data else none)
        { component := Component.mkNew "VCARD".data,
          path := "d/u.vcf".data }).1 = Except.error alreadyExistsError ∧
    (Contact.write_create
        (fun p => if p = "d/u.vcf".data then some "old".data else none)
        { component := Component.mkNew "VCARD".data,
          path := "d/u.vcf".data }).2
      = (fun p => if p = "d/u.vcf".data then some "old".data else none) :=
  (claim_C3_thm
    (fun p => if p = "d/u.vcf".data then some "old".data else none)
    { component := Component.mkNew "VCARD".data,
      path := "d/u.vcf".data }).1 (by decide)

/-- Claim C5.  Writing a generated contact and reading the same path back
succeeds and yields a contact with the very same component, hence
equivalent full-name, email and identifier (UID) property values.  The
value hypotheses reflect that the modelled line-based serialization is
only invertible for newline-free property values (generated UIDs and
header-derived names/addresses are newline-free). -/
theorem claim_C5_thm (fs : Fs) (fullname email : Option Str) (dir : Str)
    (uids : List Str) (c : Contact)
    (hg : Contact.generate fs fullname email dir uids = some c)
    (hfn : ∀ x, fullname = some x → '\n' ∉ x)
    (hem : ∀ x, email = some x → '\n' ∉ x)
    (hu : ∀ u ∈ uids, '\n' ∉ u) :
    (Contact.write_create fs c).1 = Except.ok () ∧
    (Contact.write_create fs c).2 c.path = some (write_component c.component) ∧
    Contact.from_file c.path (write_component c.component)
      = Except.ok { component := c.component, path := c.path } := by
  cases hff : findFresh fs dir uids with
  | none =>
    unfold Contact.generate at hg
    rw [hff] at hg
    cases hg
  | some p =>
    obtain ⟨uid, path⟩ := p
    have hc : c
        = { path := path,
            component := generate_component uid fullname email } := by
      have h2 := hg
      unfold Contact.generate at h2
      rw [hff] at h2
      simp at h2
      exact h2.symm
    obtain ⟨hpath, hfs, hmem⟩ := findFresh_spec fs dir uids uid path hff
    have hwf : wfComponent (generate_component uid fullname email) :=
      wf_generate_component uid fullname email (hu uid hmem) hfn hem
    subst hc
    have hnot : ¬ ((fs path).isSome = true) := by
      rw [hfs]
      simp
    refine ⟨?_, ?_, ?_⟩
    · simp [Contact.write_create, hnot]
    · simp [Contact.write_create, hnot, Fs.insert]
    · unfold Contact.from_file
      rw [parse_write_component _ hwf]

/-- Witness for claim C5 at a concrete generated contact. -/
theorem claim_C5_witness :
    (Contact.write_create (fun _ => none)
        { component := generate_component "u0".data (some "Ali".data)
            (some "a@x.com".data),
          path := "d/u0.vcf".data }).1 = Except.ok () ∧
    (Contact.write_create (fun _ => none)
        { component := generate_component "u0".data (some "Ali".data)
            (some "a@x.com".data),
          path := "d/u0.vcf".data }).2 "d/u0.vcf".data
      = some (write_component
          (generate_component "u0".data (some "Ali".data)
            (some "a@x.com".data))) ∧
    Contact.from_file "d/u0.vcf".data
        (write_component
          (generate_component "u0".data (some "Ali".data)
            (some "a@x.com".data)))
      = Except.ok
          { component := generate_component "u0".data (some "Ali".data)
              (some "a@x.com".data),
            path := "d/u0.vcf".data } :=
  claim_C5_thm (fun _ => none) (some "Ali".data) (some "a@x.com".data)
    "d".data ["u0".data]
    { component := generate_component "u0".data (some "Ali".data)
        (some "a@x.com".data),
      path := "d/u0.vcf".data }
    (by decide)
    (by intro x hx; cases hx; decide)
    (by intro x hx; cases hx; decide)
    (by decide)

/-- Claim C8, counterexample.  The claim says `generate` performs no I/O,
but `Contact::generate` probes the filesystem for path existence inside
its identifier loop: with the same identifier draws and inputs, an empty
filesystem and one already holding `d/u0.vcf` make `generate` return
different contacts, so its result depends on filesystem state. -/
theorem claim_C8_counterexample :
    Contact.generate (fun _ => none) (some "A".data) none "d".data
        ["u0".data, "u1".data]
      ≠ Contact.generate
          (fun p => if p = "d/u0.vcf".data then some [] else none)
          (some "A".data) none "d".data ["u0".data, "u1".data] := by
  decide

/-- Claim C8 (amended).  A generated contact's document has type "VCARD",
an FN property exactly when the full name is present, an EMAIL property
exactly when the email is present, and a UID property equal to the chosen
identifier; `generate` performs no writes — its only filesystem access is
probing path existence, and the chosen path is one that does not exist. -/
theorem claim_C8_thm (fs : Fs) (fullname email : Option Str) (dir : Str)
    (uids : List Str) (uid path : Str) (c : Contact)
    (hf : findFresh fs dir uids = some (uid, path))
    (hg : Contact.generate fs fullname email dir uids = some c) :
    c.component.name = "VCARD".data ∧
    c.component.all_props "FN".data = fullname.toList ∧
    c.component.all_props "EMAIL".data = email.toList ∧
    c.component.all_props "UID".data = [uid] ∧
    c.path = contactPath dir uid ∧
    fs c.path = none ∧ uid ∈ uids := by
  have hc : c
      = { path := path,
          component := generate_component uid fullname email } := by
    have h2 := hg
    unfold Contact.generate at h2
    rw [hf] at h2
    simp at h2
    exact h2.symm
  obtain ⟨hpath, hfs, hmem⟩ := findFresh_spec fs dir uids uid path hf
  subst hc
  exact ⟨generate_component_name uid fullname email,
    generate_component_FN uid fullname email,
    generate_component_EMAIL uid fullname email,
    generate_component_UID uid fullname email,
    hpath, hfs, hmem⟩

/-- Witness for claim C8's amended theorem: the concrete generated
contact's UID property equals the chosen identifier. -/
theorem claim_C8_witness :
    ({ component := generate_component "u0".data (some "A".data) none,
       path := "d/u0.vcf".data } : Contact).component.all_props "UID".data
      = ["u0".data] :=
  (claim_C8_thm (fun _ => none) (some "A".data) none "d".data ["u0".data]
    "u0".data "d/u0.vcf".data
    { component := generate_component "u0".data (some "A".data) none,
      path := "d/u0.vcf".data }
    (by decide) (by decide)).2.2.2.1

/-- Claim C10.  A contact with a full-name property but no EMAIL property
yields zero index rows without error: `index_item_from_contact` returns
the empty string, and processing such an entry in the build loop changes
neither the written index text nor the errors flag (so it cannot prevent
the build from succeeding). -/
theorem claim_C10_thm (c : Contact) (n : Str)
    (hFN : c.component.all_props "FN".data = [n])
    (hE : c.component.all_props "EMAIL".data = []) :
    index_item_from_contact c = Except.ok [] ∧
    ∀ (st : Str × Bool) (e : DirEntry),
      parse_component e.content = Except.ok c.component →
      buildStep st e = st := by
  have hii : index_item_from_contact c = Except.ok [] := by
    simp [index_item_from_contact, Component.single_prop, hFN, hE, joinList]
  refine ⟨hii, ?_⟩
  intro st e hpc
  by_cases hv : e.isVcf = true
  · have hfrom : Contact.from_file e.path e.content
        = Except.ok { component := c.component, path := e.path } := by
      unfold Contact.from_file
      rw [hpc]
    have hii2 : index_item_from_contact
        { component := c.component, path := e.path } = Except.ok [] := by
      simp [index_item_from_contact, Component.single_prop, hFN, hE, joinList]
    simp [buildStep, hv, hfrom, hii2]
  · simp [buildStep, hv]

/-- Witness for claim C10 at a concrete contact with an FN property and no
EMAIL properties. -/
theorem claim_C10_witness :
    index_item_from_contact
      { component := generate_component "u0".data (some "Ali".data) none,
        path := "d/u0.vcf".data } = Except.ok [] ∧
    buildStep ("x".data, false)
      { path := "d/u0.vcf".data, isFile := true,
        content := write_component
          (generate_component "u0".data (some "Ali".data) none) }
      = ("x".data, false) := by
  have h := claim_C10_thm
    { component := generate_component "u0".data (some "Ali".data) none,
      path := "d/u0.vcf".data } "Ali".data rfl rfl
  exact ⟨h.1, h.2 ("x".data, false)
    { path := "d/u0.vcf".data, isFile := true,
      content := write_component
        (generate_component "u0".data (some "Ali".data) none) }
    rfl⟩
